import Mathlib

/- Shallow embedding of the early access token system.
   Code generator and format checker are translated from src/utils/tokenGenerator.ts,
   the database coordinator from the TokenDatabase class, and the service layer
   validateToken from the TokenService class. Randomness is modelled by an explicit
   oracle supplying the draws that a call to the random generator would produce. -/

/-- Character class [A-Z0-9] used by both token patterns. -/
def isUpperAlnum (c : Char) : Bool :=
  (decide ('A' ≤ c) && decide (c ≤ 'Z')) || (decide ('0' ≤ c) && decide (c ≤ '9'))

/-- Character class [0-9]. -/
def isDigitCh (c : Char) : Bool :=
  decide ('0' ≤ c) && decide (c ≤ '9')

/-- Alphabet for the random hash segment, from tokenGenerator.ts. -/
def hashAlphabet : List Char := "ABCDEFGHIJKLMNOPQRSTUVWXYZ0123456789".toList

/-- Alphabet for the random sequence segment, from tokenGenerator.ts. -/
def sequenceAlphabet : List Char := "0123456789".toList

/-- Fixed dictionary of simple-format words, from tokenGenerator.ts. -/
def dictWords : List (List Char) :=
  ["BETA".toList, "ALPHA".toList, "GAMMA".toList, "DELTA".toList,
   "EPSILON".toList, "ZETA".toList, "ETA".toList]

/-- One bundle of random draws consumed by a single generateTokenCode call.
    Each field models one family of calls to the random generator; indices are
    reduced modulo the alphabet size exactly as the floor of random times length is. -/
structure GenRand where
  hashIdx : Nat → Nat
  seqIdx : Nat → Nat
  wordIdx : Nat
  numRand : Nat

/-- The customAlphabet generator applied to the hash alphabet with length 8. -/
def generateHash (r : GenRand) : List Char :=
  (List.range 8).map (fun i => hashAlphabet.getD (r.hashIdx i % hashAlphabet.length) 'A')

/-- The customAlphabet generator applied to the digit alphabet with length 4. -/
def generateSequence (r : GenRand) : List Char :=
  (List.range 4).map (fun i => sequenceAlphabet.getD (r.seqIdx i % sequenceAlphabet.length) '0')

/-- Decimal digit character. -/
def digitChar (d : Nat) : Char := Char.ofNat (48 + d)

/-- Decimal representation, most significant digit first, with explicit fuel so
    that the definition is structural; fuel n+1 always suffices for input n. -/
def natToDigitsFuel : Nat → Nat → List Char
  | 0, _ => []
  | f + 1, n => if n < 10 then [digitChar n] else natToDigitsFuel f (n / 10) ++ [digitChar (n % 10)]

/-- Decimal representation of a natural number, as the toString call produces. -/
def natRepr (n : Nat) : List Char := natToDigitsFuel (n + 1) n

/-- The padStart(4, zero) call applied to the decimal representation. -/
def padStart4 (n : Nat) : List Char :=
  List.replicate (4 - (natRepr n).length) '0' ++ natRepr n

/-- The toUpperCase call, ASCII case mapping. -/
def jsUpper (s : List Char) : List Char := s.map Char.toUpper

/-- The sequence part of a complex code: the supplied number padded to four
    digits when present, otherwise four random digits. -/
def seqOf (r : GenRand) (sequenceNumber : Option Nat) : List Char :=
  match sequenceNumber with
  | some n => padStart4 n
  | none => generateSequence r

/-- Translation of generateTokenCode from tokenGenerator.ts. An absent or empty
    custom word is falsy in the source and falls back to the dictionary pick. -/
def generateTokenCode (r : GenRand) (sequenceNumber : Option Nat) (simpleFormat : Bool)
    (customPfx : Option (List Char)) : List Char :=
  if simpleFormat then
    let pfx : List Char :=
      match customPfx with
      | some p => if p = [] then dictWords.getD (r.wordIdx % dictWords.length) [] else jsUpper p
      | none => dictWords.getD (r.wordIdx % dictWords.length) []
    let number := r.numRand % 9999 + 1
    pfx ++ padStart4 number
  else
    ['E', 'A', '-'] ++ generateHash r ++ '-' :: seqOf r sequenceNumber

/-- Anchored match of the complex pattern: the fixed two letter tag, a dash,
    eight characters of [A-Z0-9], a dash, four digits, and nothing else.
    Stated positionally over the sixteen characters of any match. -/
def matchComplex (s : List Char) : Bool :=
  decide (s.length = 16) && decide (s.take 3 = ['E', 'A', '-']) &&
  ((s.drop 3).take 8).all isUpperAlnum &&
  decide ((s.drop 11).take 1 = ['-']) &&
  (s.drop 12).all isDigitCh

/-- Anchored match of the simple pattern: two to twenty characters of [A-Z0-9]
    followed by exactly four digits. The bounded search over the split point
    renders the backtracking semantics of the bounded repetition. -/
def matchSimple (s : List Char) : Bool :=
  (List.range 19).any (fun i =>
    decide (s.length = i + 6) && (s.take (i + 2)).all isUpperAlnum && (s.drop (i + 2)).all isDigitCh)

/-- Translation of isValidTokenFormat: either pattern accepts. -/
def isValidTokenFormat (s : List Char) : Bool :=
  matchComplex s || matchSimple s

/-- Split on the dash character, as the split call with a one character
    separator behaves. -/
def splitOnDash : List Char → List (List Char)
  | [] => [[]]
  | c :: rest =>
    if c = '-' then [] :: splitOnDash rest
    else
      match splitOnDash rest with
      | [] => [[c]]
      | x :: xs => (c :: x) :: xs

/-- Result variants of parseTokenCode. -/
inductive ParseResult where
  | complex (hash seqPart : List Char)
  | simple (word num : List Char)
deriving DecidableEq

/-- Translation of parseTokenCode: reject on invalid format, split a code that
    starts with the complex tag on dashes, otherwise capture the greedy word
    and the trailing four digits of the simple pattern. -/
def parseTokenCode (s : List Char) : Option ParseResult :=
  if isValidTokenFormat s = false then none
  else if s.take 3 = ['E', 'A', '-'] then
    some (ParseResult.complex ((splitOnDash s).getD 1 []) ((splitOnDash s).getD 2 []))
  else
    if 2 ≤ s.length - 4 ∧ s.length - 4 ≤ 20 ∧ (s.take (s.length - 4)).all isUpperAlnum = true ∧
        (s.drop (s.length - 4)).all isDigitCh = true then
      some (ParseResult.simple (s.take (s.length - 4)) (s.drop (s.length - 4)))
    else none

/-- Format dependent retry cap of generateTokenBatch. -/
def maxAttemptsFor (simpleFormat : Bool) : Nat := if simpleFormat then 1000 else 100

/-- The do while loop of generateTokenBatch: generate, count the attempt, and
    retry while the code collides with the used set and attempts stay below the
    cap. The first numeric argument is the remaining allowed attempts, so the
    loop is entered with the cap and the exit value zero signals that the
    attempt counter reached the cap. Returns the last generated code, the
    remaining attempts, and the next oracle position. -/
def genWhile (oracle : Nat → GenRand) (sequenceNumber : Option Nat) (simpleFormat : Bool)
    (customPfx : Option (List Char)) (used : List (List Char)) :
    Nat → Nat → List Char × Nat × Nat
  | 0, call => (generateTokenCode (oracle call) sequenceNumber simpleFormat customPfx, 0, call + 1)
  | fuel + 1, call =>
    let tok := generateTokenCode (oracle call) sequenceNumber simpleFormat customPfx
    if tok ∈ used ∧ 0 < fuel then
      genWhile oracle sequenceNumber simpleFormat customPfx used fuel (call + 1)
    else
      (tok, fuel, call + 1)

/-- One position of the batch loop: run the do while loop and fail when the
    attempt counter reached the cap, as the throw after the loop does. -/
def batchStep (oracle : Nat → GenRand) (sequenceNumber : Option Nat) (simpleFormat : Bool)
    (customPfx : Option (List Char)) (used : List (List Char)) (call : Nat) :
    Except Unit (List Char × Nat) :=
  match genWhile oracle sequenceNumber simpleFormat customPfx used (maxAttemptsFor simpleFormat) call with
  | (tok, fuelLeft, nextCall) => if fuelLeft = 0 then Except.error () else Except.ok (tok, nextCall)

/-- The for loop of generateTokenBatch over the remaining count, carrying the
    position index, the oracle position and the used set. -/
def batchGo (oracle : Nat → GenRand) (startSeq : Option Nat) (simpleFormat : Bool)
    (customPfx : Option (List Char)) :
    Nat → Nat → Nat → List (List Char) → Except Unit (List (List Char))
  | 0, _, _, _ => Except.ok []
  | n + 1, i, call, used =>
    match batchStep oracle (startSeq.map (fun s => s + i)) simpleFormat customPfx used call with
    | Except.error _ => Except.error ()
    | Except.ok (tok, nextCall) =>
      match batchGo oracle startSeq simpleFormat customPfx n (i + 1) nextCall (tok :: used) with
      | Except.error _ => Except.error ()
      | Except.ok rest => Except.ok (tok :: rest)

/-- Translation of generateTokenBatch from tokenGenerator.ts. -/
def generateTokenBatch (oracle : Nat → GenRand) (count : Nat) (startSeq : Option Nat)
    (simpleFormat : Bool) (customPfx : Option (List Char)) : Except Unit (List (List Char)) :=
  batchGo oracle startSeq simpleFormat customPfx count 0 0 []

/-- One row of the early_access_tokens table, as the EarlyAccessToken type
    declares it. Timestamps are naturals, identities and metadata entries are
    strings. -/
structure Token where
  token_code : List Char
  created_by : Option String
  max_redemptions : Nat
  current_redemptions : Nat
  redeemed_users : List String
  redeemed_by : Option String
  redeemed_at : Option Nat
  expires_at : Option Nat
  is_active : Bool
  metadata : List (String × String)
deriving DecidableEq

/-- First value stored under a key in an association list. -/
def lookupKey (k : String) : List (String × String) → Option String
  | [] => none
  | p :: rest => if p.1 = k then some p.2 else lookupKey k rest

/-- Object spread merge: keys of the first map in order with values overridden
    by the second map, then the keys only present in the second map. -/
def jsMerge (a b : List (String × String)) : List (String × String) :=
  a.map (fun p => match lookupKey p.1 b with | some v => (p.1, v) | none => p) ++
  b.filter (fun p => (lookupKey p.1 a).isNone)

/-- Row filter of the validateToken query: the row must be active and either
    carry no expiry or expire strictly after now. -/
def rowMatches (t : Token) (now : Nat) : Bool :=
  t.is_active && (match t.expires_at with | none => true | some e => decide (now < e))

/-- Translation of TokenDatabase.validateToken. The argument is the stored row
    for the requested code, or none when no such row exists. Shared codes are
    checked against the redemption counter, unique codes against the legacy
    single redeemer column. -/
def db_validateToken (rec : Option Token) (now : Nat) : Option Token :=
  match rec with
  | none => none
  | some t =>
    if rowMatches t now then
      if t.max_redemptions > 1 then
        if t.max_redemptions ≤ t.current_redemptions then none else some t
      else
        match t.redeemed_by with
        | some _ => none
        | none => some t
    else none

/-- Read phase of TokenDatabase.redeemToken: the validation read plus the
    duplicate redeemer guard, performed on a snapshot of the row before the
    separate update statement is issued. -/
def redeemCheck (rec : Option Token) (now : Nat) (user : String) : Option Token :=
  match db_validateToken rec now with
  | none => none
  | some token =>
    if token.max_redemptions > 1 ∧ user ∈ token.redeemed_users then none else some token

/-- Write phase of TokenDatabase.redeemToken: the update payload is computed
    from the snapshot read earlier and applied to whatever the row holds at
    write time. Columns absent from the payload keep the current row value. -/
def applyRedeemUpdate (row snap : Token) (now : Nat) (user : String)
    (meta : List (String × String)) : Token :=
  if snap.max_redemptions > 1 then
    { row with
      metadata := jsMerge snap.metadata meta,
      current_redemptions := snap.current_redemptions + 1,
      redeemed_users := snap.redeemed_users ++ [user],
      redeemed_at := if snap.current_redemptions = 0 then some now else row.redeemed_at }
  else
    { row with
      metadata := jsMerge snap.metadata meta,
      redeemed_by := some user,
      redeemed_at := some now }

/-- Error outcomes of redeemToken: the generic not valid for redemption throw
    and the duplicate redeemer throw. -/
inductive RedeemError where
  | notEligible
  | alreadyRedeemed
deriving DecidableEq

/-- Translation of TokenDatabase.redeemToken run without interference: the
    update is applied to the same row the validation read returned. -/
def db_redeemToken (rec : Option Token) (now : Nat) (user : String)
    (meta : List (String × String)) : Except RedeemError Token :=
  match db_validateToken rec now with
  | none => Except.error RedeemError.notEligible
  | some token =>
    if token.max_redemptions > 1 ∧ user ∈ token.redeemed_users then
      Except.error RedeemError.alreadyRedeemed
    else
      Except.ok (applyRedeemUpdate token token now user meta)

/-- Translation of TokenDatabase.createToken: fresh rows take the table
    defaults for the redemption state, and a missing or zero maximum is
    replaced by one because zero is falsy in the source. -/
def createToken (code : List Char) (creator : Option String) (maxRed : Option Nat)
    (expires : Option Nat) (meta : List (String × String)) : Token :=
  { token_code := code,
    created_by := creator,
    max_redemptions := match maxRed with | some m => if m = 0 then 1 else m | none => 1,
    current_redemptions := 0,
    redeemed_users := [],
    redeemed_by := none,
    redeemed_at := none,
    expires_at := expires,
    is_active := true,
    metadata := meta }

/-- Translation of TokenDatabase.deactivateToken. -/
def deactivateToken (t : Token) : Token := { t with is_active := false }

/-- Result shape of TokenService.validateToken. -/
structure TokenValidationResult where
  valid : Bool
  token : Option Token
  error : Option String
deriving DecidableEq

/-- Error message of the format rejection in TokenService.validateToken. -/
def invalidFormatMsg : String := "Invalid token format"

/-- Single error message the service returns for every database side
    rejection of a well formed code. -/
def notEligibleMsg : String := "Token not found, already redeemed, expired, or inactive"

/-- Translation of TokenService.validateToken. The second argument is the
    stored row for the code, or none when the table has no such row. -/
def service_validateToken (code : List Char) (rec : Option Token) (now : Nat) :
    TokenValidationResult :=
  if isValidTokenFormat code = false then
    { valid := false, token := none, error := some invalidFormatMsg }
  else
    match db_validateToken rec now with
    | none => { valid := false, token := none, error := some notEligibleMsg }
    | some t => { valid := true, token := some t, error := none }

/-- Records reachable from creation through successful redemptions and
    deactivations, the only mutations the coordinator performs. -/
inductive Reachable : Token → Prop
  | created (code : List Char) (creator : Option String) (maxRed : Option Nat)
      (expires : Option Nat) (meta : List (String × String)) :
      Reachable (createToken code creator maxRed expires meta)
  | redeemed (t : Token) (now : Nat) (user : String) (meta : List (String × String))
      (t' : Token) (ht : Reachable t)
      (hstep : db_redeemToken (some t) now user meta = Except.ok t') : Reachable t'
  | deactivated (t : Token) (ht : Reachable t) : Reachable (deactivateToken t)

/-- Oracle draw that always picks the first alphabet character and the lowest
    number. -/
def rZero : GenRand := ⟨fun _ => 0, fun _ => 0, 0, 0⟩

/-- Oracle draw whose hash characters are the second alphabet character. -/
def rOne : GenRand := ⟨fun _ => 1, fun _ => 0, 0, 0⟩

/-- Oracle that repeats the same draw for the first hundred calls and only then
    switches, so the second batch position collides until the attempt cap. -/
def oracleCap : Nat → GenRand := fun k => if k < 100 then rZero else rOne

/-- Fresh unique code record used by the redemption counterexamples. -/
def tA : Token := createToken "EA-AAAAAAAA-0001".toList none (some 1) none [("a", "1")]

/-- Row produced by redeeming tA: the single redeemer columns are set while the
    counter and the redeemer list keep their creation values. -/
def tA1 : Token :=
  { tA with
    metadata := [("a", "1"), ("k", "v")], redeemed_by := some "alice",
    redeemed_at := some 3 }

/-- Fresh shared code record with a quota of twenty five. -/
def tB : Token := createToken "BETA2025".toList none (some 25) none []

/-- Row produced by the first redemption of tB: the counter and redeemer list
    advance while the legacy single redeemer column stays empty. -/
def tB1 : Token :=
  { tB with
    current_redemptions := 1, redeemed_users := ["bob"], redeemed_at := some 3 }

/-- Fresh unique code record for the reachability counterexample. -/
def tUnique : Token := createToken "EA-AAAAAAAA-0001".toList none (some 1) none []

/-- Row produced by redeeming tUnique at time five. -/
def tUniqueRedeemed : Token :=
  { tUnique with
    redeemed_by := some "u1", redeemed_at := some 5 }

/-- Unique code record already redeemed by user u1. -/
def tUniq2 : Token :=
  { token_code := "EA-AAAAAAAA-0002".toList, created_by := none, max_redemptions := 1,
    current_redemptions := 0, redeemed_users := [], redeemed_by := some "u1",
    redeemed_at := some 3, expires_at := none, is_active := true, metadata := [] }

/-- Shared code record already redeemed once, by user u1. -/
def tShared3 : Token :=
  { token_code := "VIP0001".toList, created_by := none, max_redemptions := 3,
    current_redemptions := 1, redeemed_users := ["u1"], redeemed_by := none,
    redeemed_at := some 2, expires_at := none, is_active := true, metadata := [] }

/-- Fully eligible shared code record, about to be deactivated. -/
def tInactive : Token :=
  { token_code := "BETA2025".toList, created_by := none, max_redemptions := 5,
    current_redemptions := 0, redeemed_users := [], redeemed_by := none,
    redeemed_at := none, expires_at := none, is_active := true, metadata := [] }

/-- The same record after deactivation. -/
def tInactiveOff : Token := deactivateToken tInactive

/-- Shared code record with a quota of two, target of the racing redemptions. -/
def tQuota : Token :=
  { token_code := "BETA1111".toList, created_by := none, max_redemptions := 2,
    current_redemptions := 0, redeemed_users := [], redeemed_by := none,
    redeemed_at := none, expires_at := none, is_active := true, metadata := [] }

/-- Row after the first racing writer commits its update. -/
def writeA : Token := applyRedeemUpdate tQuota tQuota 10 "A" []

/-- Row after the second racing writer commits an update computed from the
    stale snapshot it read before the first writer committed. -/
def writeB : Token := applyRedeemUpdate writeA tQuota 10 "B" []

/-- Row after a third, sequential redemption on top of the raced state. -/
def writeC : Token := applyRedeemUpdate writeB writeB 11 "C" []

/-- Declarative reading of the complex pattern, following the words of the
    specification: the fixed tag and a dash, eight characters of [A-Z0-9],
    a dash, and four decimal digits, with nothing around them. -/
def specComplexPattern (s : List Char) : Prop :=
  ∃ h q, s = 'E' :: 'A' :: '-' :: (h ++ '-' :: q) ∧ h.length = 8 ∧
    h.all isUpperAlnum = true ∧ q.length = 4 ∧ q.all isDigitCh = true

/-- Declarative reading of the simple pattern, following the words of the
    specification: two to twenty characters of [A-Z0-9] followed by exactly
    four decimal digits, with nothing around them. -/
def specSimplePattern (s : List Char) : Prop :=
  ∃ p q, s = p ++ q ∧ 2 ≤ p.length ∧ p.length ≤ 20 ∧
    p.all isUpperAlnum = true ∧ q.length = 4 ∧ q.all isDigitCh = true

theorem isDigitCh_isUpperAlnum {c : Char} (h : isDigitCh c = true) : isUpperAlnum c = true := by
  simp only [isDigitCh, Bool.and_eq_true, decide_eq_true_eq] at h
  simp [isUpperAlnum, h.1, h.2]

theorem isUpperAlnum_ne_dash {c : Char} (h : isUpperAlnum c = true) : c ≠ '-' := by
  intro he
  subst he
  exact absurd h (by decide)

theorem isDigitCh_ne_dash {c : Char} (h : isDigitCh c = true) : c ≠ '-' := by
  intro he
  subst he
  exact absurd h (by decide)

theorem isDigitCh_digitChar : ∀ d, d < 10 → isDigitCh (digitChar d) = true := by decide

theorem natToDigitsFuel_digits : ∀ f n c, c ∈ natToDigitsFuel f n → isDigitCh c = true := by
  intro f
  induction f with
  | zero => intro n c hc; simp [natToDigitsFuel] at hc
  | succ f ih =>
    intro n c hc
    by_cases h : n < 10
    · simp [natToDigitsFuel, h] at hc
      subst hc
      exact isDigitCh_digitChar n h
    · simp [natToDigitsFuel, h] at hc
      rcases hc with hc | hc
      · exact ih _ _ hc
      · subst hc
        exact isDigitCh_digitChar _ (Nat.mod_lt _ (by norm_num))

theorem natToDigitsFuel_length : ∀ f n k, 0 < k → n < 10 ^ k → (natToDigitsFuel f n).length ≤ k := by
  intro f
  induction f with
  | zero => intro n k _ _; simp [natToDigitsFuel]
  | succ f ih =>
    intro n k hk hn
    by_cases h : n < 10
    · simp [natToDigitsFuel, h]
      omega
    · match k with
      | 1 => exact absurd hn (by simpa using h)
      | k + 2 =>
        have hdiv : n / 10 < 10 ^ (k + 1) := by
          rw [Nat.div_lt_iff_lt_mul (by norm_num)]
          calc n < 10 ^ (k + 2) := hn
            _ = 10 ^ (k + 1) * 10 := by ring
        have := ih (n / 10) (k + 1) (by omega) hdiv
        simp [natToDigitsFuel, h, List.length_append]
        omega

theorem padStart4_length {n : Nat} (h : n ≤ 9999) : (padStart4 n).length = 4 := by
  have hle : (natRepr n).length ≤ 4 :=
    natToDigitsFuel_length (n + 1) n 4 (by norm_num) (by norm_num; omega)
  simp only [padStart4, List.length_append, List.length_replicate]
  omega

theorem padStart4_digits (n : Nat) : (padStart4 n).all isDigitCh = true := by
  simp only [padStart4, List.all_append, Bool.and_eq_true, List.all_eq_true]
  constructor
  · intro c hc
    rw [List.eq_of_mem_replicate hc]
    decide
  · intro c hc
    exact natToDigitsFuel_digits _ _ _ hc

theorem hashAlphabet_class : ∀ j, j < 36 → isUpperAlnum (hashAlphabet.getD j 'A') = true := by
  decide

theorem generateHash_length (r : GenRand) : (generateHash r).length = 8 := by
  simp [generateHash]

theorem generateHash_class (r : GenRand) : (generateHash r).all isUpperAlnum = true := by
  simp only [generateHash, List.all_eq_true]
  intro c hc
  rw [List.mem_map] at hc
  obtain ⟨i, _, hi⟩ := hc
  rw [← hi]
  exact hashAlphabet_class _ (Nat.mod_lt _ (by decide))

theorem sequenceAlphabet_class : ∀ j, j < 10 → isDigitCh (sequenceAlphabet.getD j '0') = true := by
  decide

theorem generateSequence_length (r : GenRand) : (generateSequence r).length = 4 := by
  simp [generateSequence]

theorem generateSequence_digits (r : GenRand) : (generateSequence r).all isDigitCh = true := by
  simp only [generateSequence, List.all_eq_true]
  intro c hc
  rw [List.mem_map] at hc
  obtain ⟨i, _, hi⟩ := hc
  rw [← hi]
  exact sequenceAlphabet_class _ (Nat.mod_lt _ (by decide))

theorem dictWords_wf : ∀ j, j < 7 →
    2 ≤ (dictWords.getD j []).length ∧ (dictWords.getD j []).length ≤ 20 ∧
    (dictWords.getD j []).all isUpperAlnum = true := by
  decide

theorem seqOf_wf (r : GenRand) (sq : Option Nat) (hsq : ∀ n, sq = some n → n ≤ 9999) :
    (seqOf r sq).length = 4 ∧ (seqOf r sq).all isDigitCh = true := by
  match sq with
  | some n => exact ⟨padStart4_length (hsq n rfl), padStart4_digits n⟩
  | none => exact ⟨generateSequence_length r, generateSequence_digits r⟩

theorem matchComplex_iff (s : List Char) : matchComplex s = true ↔ specComplexPattern s := by
  constructor
  · intro h
    simp only [matchComplex, Bool.and_eq_true, decide_eq_true_eq] at h
    obtain ⟨⟨⟨⟨hlen, htag⟩, hhash⟩, hdash⟩, hdig⟩ := h
    refine ⟨(s.drop 3).take 8, s.drop 12, ?_, ?_, hhash, ?_, hdig⟩
    · have h1 : s.drop 3 = (s.drop 3).take 8 ++ (s.drop 3).drop 8 :=
        (List.take_append_drop _ _).symm
      have h2 : (s.drop 3).drop 8 = s.drop 11 := by
        rw [List.drop_drop]
      have h3 : s.drop 11 = '-' :: s.drop 12 := by
        have h4 : s.drop 11 = (s.drop 11).take 1 ++ (s.drop 11).drop 1 :=
          (List.take_append_drop _ _).symm
        rw [hdash, List.drop_drop] at h4
        exact h4
      conv_lhs => rw [← List.take_append_drop 3 s, htag, h1, h2, h3]
      rfl
    · simp [List.length_take, List.length_drop, hlen]
    · simp [List.length_drop, hlen]
  · rintro ⟨h, q, rfl, hh, hhc, hq, hqc⟩
    have e1 : 'E' :: 'A' :: '-' :: (h ++ '-' :: q) = ['E', 'A', '-'] ++ (h ++ '-' :: q) := rfl
    have e2 : 'E' :: 'A' :: '-' :: (h ++ '-' :: q) = (['E', 'A', '-'] ++ h) ++ ('-' :: q) := by
      simp
    have e3 : 'E' :: 'A' :: '-' :: (h ++ '-' :: q) = ((['E', 'A', '-'] ++ h) ++ ['-']) ++ q := by
      simp
    simp only [matchComplex, Bool.and_eq_true, decide_eq_true_eq]
    refine ⟨⟨⟨⟨?_, ?_⟩, ?_⟩, ?_⟩, ?_⟩
    · simp [List.length_append, hh, hq]
    · rw [e1, List.take_left' (by rfl)]
    · rw [e1, List.drop_left' (by rfl), List.take_left' hh]
      exact hhc
    · rw [e2, List.drop_left' (by simp [hh])]
      rfl
    · rw [e3, List.drop_left' (by simp [hh])]
      exact hqc

theorem matchSimple_iff (s : List Char) : matchSimple s = true ↔ specSimplePattern s := by
  constructor
  · intro h
    rw [matchSimple, List.any_eq_true] at h
    obtain ⟨i, hi, hp⟩ := h
    rw [List.mem_range] at hi
    simp only [Bool.and_eq_true, decide_eq_true_eq] at hp
    obtain ⟨⟨hlen, hcls⟩, hdig⟩ := hp
    refine ⟨s.take (i + 2), s.drop (i + 2), (List.take_append_drop _ _).symm, ?_, ?_, hcls, ?_,
      hdig⟩
    · rw [List.length_take]
      omega
    · rw [List.length_take]
      omega
    · rw [List.length_drop]
      omega
  · rintro ⟨p, q, rfl, hp2, hp20, hpc, hq, hqc⟩
    rw [matchSimple, List.any_eq_true]
    refine ⟨p.length - 2, List.mem_range.mpr (by omega), ?_⟩
    simp only [Bool.and_eq_true, decide_eq_true_eq]
    have hlen : p.length - 2 + 2 = p.length := by omega
    refine ⟨⟨?_, ?_⟩, ?_⟩
    · rw [List.length_append]
      omega
    · rw [hlen, List.take_left]
      exact hpc
    · rw [hlen, List.drop_left]
      exact hqc

/-- C6: a string passes isValidTokenFormat exactly when it matches the complex
    pattern of a tag, eight characters of [A-Z0-9] and four digits separated by
    dashes, or the simple pattern of two to twenty characters of [A-Z0-9]
    followed by four digits; matching is anchored on both sides so case
    differences or surrounding whitespace are rejected, and the two patterns
    are checked independently with either match accepting. -/
theorem tokensysC6 (s : List Char) :
    isValidTokenFormat s = true ↔ specComplexPattern s ∨ specSimplePattern s := by
  simp only [isValidTokenFormat, Bool.or_eq_true, matchComplex_iff, matchSimple_iff]

theorem splitOnDash_dashfree {l : List Char} (h : ∀ c ∈ l, c ≠ '-') : splitOnDash l = [l] := by
  induction l with
  | nil => rfl
  | cons c rest ih =>
    have hc : c ≠ '-' := h c (by simp)
    have hr := ih (fun x hx => h x (by simp [hx]))
    simp [splitOnDash, hc, hr]

theorem splitOnDash_append {l t : List Char} (h : ∀ c ∈ l, c ≠ '-') :
    splitOnDash (l ++ '-' :: t) = l :: splitOnDash t := by
  induction l with
  | nil => simp [splitOnDash]
  | cons c rest ih =>
    have hc : c ≠ '-' := h c (by simp)
    have hr := ih (fun x hx => h x (by simp [hx]))
    simp [splitOnDash, hc, hr]

theorem parse_complex_shape {h q : List Char} (hh : h.length = 8) (hhc : h.all isUpperAlnum = true)
    (hq : q.length = 4) (hqc : q.all isDigitCh = true) :
    parseTokenCode ('E' :: 'A' :: '-' :: (h ++ '-' :: q)) = some (ParseResult.complex h q) := by
  have hvalid : isValidTokenFormat ('E' :: 'A' :: '-' :: (h ++ '-' :: q)) = true := by
    rw [isValidTokenFormat, Bool.or_eq_true]
    exact Or.inl ((matchComplex_iff _).mpr ⟨h, q, rfl, hh, hhc, hq, hqc⟩)
  have hnd_h : ∀ c ∈ h, c ≠ '-' := fun c hc =>
    isUpperAlnum_ne_dash (List.all_eq_true.mp hhc c hc)
  have hnd_q : ∀ c ∈ q, c ≠ '-' := fun c hc =>
    isDigitCh_ne_dash (List.all_eq_true.mp hqc c hc)
  have hsplit : splitOnDash ('E' :: 'A' :: '-' :: (h ++ '-' :: q)) = [['E', 'A'], h, q] := by
    show splitOnDash ((['E', 'A'] : List Char) ++ '-' :: (h ++ '-' :: q)) = _
    rw [splitOnDash_append (by decide), splitOnDash_append hnd_h, splitOnDash_dashfree hnd_q]
  unfold parseTokenCode
  rw [hvalid]
  simp [hsplit]

/-- C10: parseTokenCode returns a non null result exactly on the strings that
    isValidTokenFormat accepts; in particular the final null branch of the
    parser behind a passed format check is unreachable, so a caller may treat
    every format valid code as parseable. -/
theorem tokensysC10 (s : List Char) : (parseTokenCode s).isSome = isValidTokenFormat s := by
  unfold parseTokenCode
  by_cases hv : isValidTokenFormat s = false
  · simp [hv]
  · have hv' : isValidTokenFormat s = true := by
      revert hv
      cases isValidTokenFormat s <;> simp
    rw [hv']
    simp only [Bool.true_eq_false, if_false]
    by_cases ht : s.take 3 = ['E', 'A', '-']
    · simp [ht]
    · rw [if_neg ht]
      have hsim : matchSimple s = true := by
        cases hmc : matchComplex s with
        | true =>
          exfalso
          simp only [matchComplex, Bool.and_eq_true, decide_eq_true_eq] at hmc
          exact ht hmc.1.1.1.2
        | false =>
          have hor := hv'
          rw [isValidTokenFormat, hmc, Bool.false_or] at hor
          exact hor
      obtain ⟨p, q, hs, hp2, hp20, hpc, hq, hqc⟩ := (matchSimple_iff s).mp hsim
      have hklen : s.length - 4 = p.length := by
        rw [hs, List.length_append]
        omega
      have htake : s.take (s.length - 4) = p := by
        rw [hklen, hs, List.take_left]
      have hdrop : s.drop (s.length - 4) = q := by
        rw [hklen, hs, List.drop_left]
      rw [if_pos ⟨by omega, by omega, by rw [htake]; exact hpc, by rw [hdrop]; exact hqc⟩]
      rfl

theorem parse_simple_shape {w : List Char} (r : GenRand) (hw2 : 2 ≤ w.length)
    (hw20 : w.length ≤ 20) (hwc : w.all isUpperAlnum = true) :
    (parseTokenCode (w ++ padStart4 (r.numRand % 9999 + 1))).isSome = true := by
  have hnum : r.numRand % 9999 + 1 ≤ 9999 := by
    have := Nat.mod_lt r.numRand (show 0 < 9999 by norm_num)
    omega
  have hpd4 : (padStart4 (r.numRand % 9999 + 1)).length = 4 := padStart4_length hnum
  have hpdd := padStart4_digits (r.numRand % 9999 + 1)
  have hvalid : isValidTokenFormat (w ++ padStart4 (r.numRand % 9999 + 1)) = true := by
    rw [isValidTokenFormat, Bool.or_eq_true]
    exact Or.inr ((matchSimple_iff _).mpr ⟨w, _, rfl, hw2, hw20, hwc, hpd4, hpdd⟩)
  have hall : ∀ c ∈ w ++ padStart4 (r.numRand % 9999 + 1), isUpperAlnum c = true := by
    intro c hc
    rcases List.mem_append.mp hc with hc | hc
    · exact List.all_eq_true.mp hwc c hc
    · exact isDigitCh_isUpperAlnum (List.all_eq_true.mp hpdd c hc)
  have hne : (w ++ padStart4 (r.numRand % 9999 + 1)).take 3 ≠ ['E', 'A', '-'] := by
    intro heq
    have hm : '-' ∈ (w ++ padStart4 (r.numRand % 9999 + 1)).take 3 := by
      rw [heq]
      simp
    have := hall '-' (List.take_subset _ _ hm)
    exact absurd this (by decide)
  have hklen : (w ++ padStart4 (r.numRand % 9999 + 1)).length - 4 = w.length := by
    rw [List.length_append, hpd4]
    omega
  unfold parseTokenCode
  rw [hvalid]
  simp only [Bool.true_eq_false, if_false]
  rw [if_neg hne,
    if_pos ⟨by rw [hklen]; omega, by rw [hklen]; omega,
      by rw [hklen, List.take_left]; exact hwc,
      by rw [hklen, List.drop_left]; exact hpdd⟩]
  rfl

/-- C7 (counterexample): generateTokenCode accepts any natural sequence number,
    and a sequence of ten thousand yields the code EA-AAAAAAAA-10000 under the
    constant oracle, whose five digit tail fails both patterns, so parsing the
    generated code returns null; the claim that every generated code parses
    regardless of the argument combination is false. -/
theorem tokensysC7_cex :
    parseTokenCode (generateTokenCode rZero (some 10000) false none) = none := by decide

/-- C7 (amended): every code produced by generateTokenCode parses provided the
    supplied sequence number does not exceed 9999 and, in the simple format, a
    supplied custom word is empty or upper-cases to between two and twenty
    characters of [A-Z0-9]; moreover every complex code parses back to exactly
    its hash and sequence segments, so re-assembling tag, hash and sequence
    reproduces the original string. -/
theorem tokensysC7_amended (r : GenRand) (sq : Option Nat) (simpleFormat : Bool)
    (cp : Option (List Char))
    (hsq : ∀ n, sq = some n → n ≤ 9999)
    (hcp : ∀ p, cp = some p → p ≠ [] →
      2 ≤ (jsUpper p).length ∧ (jsUpper p).length ≤ 20 ∧ (jsUpper p).all isUpperAlnum = true) :
    (parseTokenCode (generateTokenCode r sq simpleFormat cp)).isSome = true ∧
    (simpleFormat = false →
      parseTokenCode (generateTokenCode r sq false cp) =
        some (ParseResult.complex (generateHash r) (seqOf r sq)) ∧
      generateTokenCode r sq false cp =
        ['E', 'A', '-'] ++ generateHash r ++ '-' :: seqOf r sq) := by
  cases simpleFormat with
  | false =>
    have hs := seqOf_wf r sq hsq
    have heq : generateTokenCode r sq false cp =
        'E' :: 'A' :: '-' :: (generateHash r ++ '-' :: seqOf r sq) := rfl
    have hp := parse_complex_shape (generateHash_length r) (generateHash_class r) hs.1 hs.2
    refine ⟨?_, fun _ => ⟨?_, ?_⟩⟩
    · rw [heq, hp]
      rfl
    · rw [heq, hp]
    · rw [heq]
      rfl
  | true =>
    refine ⟨?_, fun hcontra => Bool.noConfusion hcontra⟩
    match cp with
    | none =>
      have hd := dictWords_wf (r.wordIdx % dictWords.length) (Nat.mod_lt _ (by decide))
      have heq : generateTokenCode r sq true none =
          dictWords.getD (r.wordIdx % dictWords.length) [] ++ padStart4 (r.numRand % 9999 + 1) :=
        rfl
      rw [heq]
      exact parse_simple_shape r hd.1 hd.2.1 hd.2.2
    | some p =>
      by_cases hp : p = []
      · subst hp
        have hd := dictWords_wf (r.wordIdx % dictWords.length) (Nat.mod_lt _ (by decide))
        have heq : generateTokenCode r sq true (some []) =
            dictWords.getD (r.wordIdx % dictWords.length) [] ++
              padStart4 (r.numRand % 9999 + 1) := rfl
        rw [heq]
        exact parse_simple_shape r hd.1 hd.2.1 hd.2.2
      · have h3 := hcp p rfl hp
        have heq : generateTokenCode r sq true (some p) =
            jsUpper p ++ padStart4 (r.numRand % 9999 + 1) := by
          simp [generateTokenCode, hp]
        rw [heq]
        exact parse_simple_shape r h3.1 h3.2.1 h3.2.2

/-- C7 (witness): the amended round trip theorem applied to a concrete complex
    code with sequence number 123 under the constant oracle. -/
theorem tokensysC7_witness :
    (parseTokenCode (generateTokenCode rZero (some 123) false none)).isSome = true :=
  (tokensysC7_amended rZero (some 123) false none
    (fun n hn => by injection hn with h; omega)
    (fun p hp => Option.noConfusion hp)).1

theorem genWhile_isGen (oracle : Nat → GenRand) (sq : Option Nat) (sf : Bool)
    (cp : Option (List Char)) (used : List (List Char)) :
    ∀ fuel call, ∃ k,
      (genWhile oracle sq sf cp used fuel call).1 = generateTokenCode (oracle k) sq sf cp := by
  intro fuel
  induction fuel with
  | zero => intro call; exact ⟨call, rfl⟩
  | succ fuel ih =>
    intro call
    by_cases h : generateTokenCode (oracle call) sq sf cp ∈ used ∧ 0 < fuel
    · simpa [genWhile, h] using ih (call + 1)
    · exact ⟨call, by simp [genWhile, h]⟩

theorem genWhile_fresh (oracle : Nat → GenRand) (sq : Option Nat) (sf : Bool)
    (cp : Option (List Char)) (used : List (List Char)) :
    ∀ fuel call, (genWhile oracle sq sf cp used fuel call).2.1 ≠ 0 →
      (genWhile oracle sq sf cp used fuel call).1 ∉ used := by
  intro fuel
  induction fuel with
  | zero => intro call h; exact absurd rfl h
  | succ fuel ih =>
    intro call h
    by_cases hc : generateTokenCode (oracle call) sq sf cp ∈ used ∧ 0 < fuel
    · rw [show genWhile oracle sq sf cp used (fuel + 1) call =
          genWhile oracle sq sf cp used fuel (call + 1) from by simp [genWhile, hc]] at h ⊢
      exact ih (call + 1) h
    · rw [show genWhile oracle sq sf cp used (fuel + 1) call =
          (generateTokenCode (oracle call) sq sf cp, fuel, call + 1) from by
        simp [genWhile, hc]] at h ⊢
      intro hmem
      exact hc ⟨hmem, Nat.pos_of_ne_zero h⟩

theorem batchStep_ok (oracle : Nat → GenRand) (sq : Option Nat) (sf : Bool)
    (cp : Option (List Char)) (used : List (List Char)) (call : Nat) (tok : List Char)
    (nextCall : Nat) (h : batchStep oracle sq sf cp used call = Except.ok (tok, nextCall)) :
    tok ∉ used ∧ ∃ k, tok = generateTokenCode (oracle k) sq sf cp := by
  unfold batchStep at h
  rcases hgw : genWhile oracle sq sf cp used (maxAttemptsFor sf) call with ⟨t0, f0, c0⟩
  rw [hgw] at h
  dsimp only at h
  by_cases hf : f0 = 0
  · rw [if_pos hf] at h
    exact Except.noConfusion h
  · rw [if_neg hf] at h
    injection h with h
    injection h with h1 h2
    subst h1
    constructor
    · have hfr := genWhile_fresh oracle sq sf cp used (maxAttemptsFor sf) call
      rw [hgw] at hfr
      exact hfr hf
    · obtain ⟨k, hk⟩ := genWhile_isGen oracle sq sf cp used (maxAttemptsFor sf) call
      rw [hgw] at hk
      exact ⟨k, hk.symm ▸ rfl⟩

theorem batchGo_spec (oracle : Nat → GenRand) (startSeq : Option Nat) (sf : Bool)
    (cp : Option (List Char)) :
    ∀ n i call used ts, batchGo oracle startSeq sf cp n i call used = Except.ok ts →
      ts.length = n ∧ (∀ t ∈ ts, t ∉ used) ∧ ts.Nodup ∧
      (sf = false → ∀ s, startSeq = some s → ∀ j (hj : j < ts.length),
        ∃ hsh, hsh.length = 8 ∧ hsh.all isUpperAlnum = true ∧
          ts.get ⟨j, hj⟩ = ['E', 'A', '-'] ++ hsh ++ '-' :: padStart4 (s + i + j)) := by
  intro n
  induction n with
  | zero =>
    intro i call used ts h
    simp only [batchGo] at h
    injection h with h
    subst h
    exact ⟨rfl, by simp, List.nodup_nil, fun _ s _ j hj => absurd hj (by simp)⟩
  | succ n ih =>
    intro i call used ts h
    simp only [batchGo] at h
    cases hstep : batchStep oracle (startSeq.map fun s => s + i) sf cp used call with
    | error e =>
      rw [hstep] at h
      exact Except.noConfusion h
    | ok pr =>
      obtain ⟨tok, nextCall⟩ := pr
      rw [hstep] at h
      dsimp only at h
      cases hrest : batchGo oracle startSeq sf cp n (i + 1) nextCall (tok :: used) with
      | error e =>
        rw [hrest] at h
        exact Except.noConfusion h
      | ok rest =>
        rw [hrest] at h
        dsimp only at h
        injection h with h
        subst h
        obtain ⟨hlen, hused, hnd, hseq⟩ := ih (i + 1) nextCall (tok :: used) rest hrest
        obtain ⟨htok, k, hkeq⟩ := batchStep_ok oracle _ sf cp used call tok nextCall hstep
        refine ⟨by simp [hlen], ?_, ?_, ?_⟩
        · intro t ht
          rcases List.mem_cons.mp ht with rfl | ht
          · exact htok
          · intro hmem
            exact hused t ht (List.mem_cons_of_mem _ hmem)
        · rw [List.nodup_cons]
          exact ⟨fun hmem => hused tok hmem (List.mem_cons_self _ _), hnd⟩
        · intro hsf s hss j hj
          subst hsf
          subst hss
          match j, hj with
          | 0, hj =>
            refine ⟨generateHash (oracle k), generateHash_length _, generateHash_class _, ?_⟩
            show tok = _
            rw [hkeq]
            show generateTokenCode (oracle k) (some (s + i)) false cp = _
            show ['E', 'A', '-'] ++ generateHash (oracle k) ++
              '-' :: padStart4 (s + i) = _
            rw [Nat.add_zero]
          | j + 1, hj =>
            have hj' : j < rest.length := by
              simpa using Nat.lt_of_succ_lt_succ (by simpa using hj)
            obtain ⟨hsh, h8, hcls, hget⟩ := hseq rfl s rfl j hj'
            refine ⟨hsh, h8, hcls, ?_⟩
            rw [List.get_cons_succ]
            rw [hget]
            have : s + (i + 1) + j = s + i + (j + 1) := by omega
            rw [this]

/-- C8: whenever generateTokenBatch returns normally it returns exactly count
    pairwise distinct codes, and when a start sequence is supplied in the
    complex format the code at position j carries the sequence segment obtained
    by zero padding the start sequence plus j, in order. -/
theorem tokensysC8 (oracle : Nat → GenRand) (count : Nat) (startSeq : Option Nat) (sf : Bool)
    (cp : Option (List Char)) (ts : List (List Char))
    (h : generateTokenBatch oracle count startSeq sf cp = Except.ok ts) :
    ts.length = count ∧ ts.Nodup ∧
    (sf = false → ∀ s, startSeq = some s → ∀ j (hj : j < ts.length),
      ∃ hsh, hsh.length = 8 ∧ hsh.all isUpperAlnum = true ∧
        ts.get ⟨j, hj⟩ = ['E', 'A', '-'] ++ hsh ++ '-' :: padStart4 (s + j)) := by
  obtain ⟨hlen, _, hnd, hseq⟩ := batchGo_spec oracle startSeq sf cp count 0 0 [] ts h
  refine ⟨hlen, hnd, ?_⟩
  intro hsf s hss j hj
  obtain ⟨hsh, h8, hcls, hget⟩ := hseq hsf s hss j hj
  exact ⟨hsh, h8, hcls, by rw [hget, Nat.add_zero]⟩

/-- C8 (witness): the batch theorem applied to the constant oracle with count
    three and start sequence one hundred, which returns the three codes with
    sequence segments 0100, 0101 and 0102 in order. -/
theorem tokensysC8_witness :
    ("EA-AAAAAAAA-0100".toList :: "EA-AAAAAAAA-0101".toList ::
        ["EA-AAAAAAAA-0102".toList]).length = 3 ∧
    ("EA-AAAAAAAA-0100".toList :: "EA-AAAAAAAA-0101".toList ::
        ["EA-AAAAAAAA-0102".toList]).Nodup ∧
    (false = false → ∀ s, (some 100 : Option Nat) = some s →
      ∀ j (hj : j < ("EA-AAAAAAAA-0100".toList :: "EA-AAAAAAAA-0101".toList ::
        ["EA-AAAAAAAA-0102".toList]).length),
      ∃ hsh, hsh.length = 8 ∧ hsh.all isUpperAlnum = true ∧
        ("EA-AAAAAAAA-0100".toList :: "EA-AAAAAAAA-0101".toList ::
          ["EA-AAAAAAAA-0102".toList]).get ⟨j, hj⟩ =
          ['E', 'A', '-'] ++ hsh ++ '-' :: padStart4 (s + j)) :=
  tokensysC8 (fun _ => rZero) 3 (some 100) false none
    ("EA-AAAAAAAA-0100".toList :: "EA-AAAAAAAA-0101".toList ::
      ["EA-AAAAAAAA-0102".toList]) rfl

theorem genWhile_firstFresh (oracle : Nat → GenRand) (sq : Option Nat) (sf : Bool)
    (cp : Option (List Char)) (used : List (List Char)) :
    ∀ n fuel call, n < fuel →
      (∀ j, j < n → generateTokenCode (oracle (call + j)) sq sf cp ∈ used) →
      generateTokenCode (oracle (call + n)) sq sf cp ∉ used →
      genWhile oracle sq sf cp used fuel call =
        (generateTokenCode (oracle (call + n)) sq sf cp, fuel - (n + 1), call + n + 1) := by
  intro n
  induction n with
  | zero =>
    intro fuel call hn _ hfresh
    match fuel, hn with
    | fuel + 1, _ =>
      have hng : ¬ (generateTokenCode (oracle call) sq sf cp ∈ used ∧ 0 < fuel) := by
        intro hc
        exact hfresh (by simpa using hc.1)
      simp [genWhile, hng]
  | succ n ih =>
    intro fuel call hn hcol hfresh
    match fuel, hn with
    | fuel + 1, hn =>
      have h0 : generateTokenCode (oracle call) sq sf cp ∈ used := by
        simpa using hcol 0 (by omega)
      have hpos : 0 < fuel := by omega
      rw [show genWhile oracle sq sf cp used (fuel + 1) call =
          genWhile oracle sq sf cp used fuel (call + 1) from by simp [genWhile, h0, hpos]]
      have hrec := ih fuel (call + 1) (by omega)
        (fun j hj => by
          have hc := hcol (j + 1) (by omega)
          rwa [show call + (j + 1) = call + 1 + j from by omega] at hc)
        (by rwa [show call + (n + 1) = call + 1 + n from by omega] at hfresh)
      rw [hrec]
      have e1 : call + 1 + n = call + (n + 1) := by omega
      have e2 : fuel - (n + 1) = fuel + 1 - (n + 1 + 1) := by omega
      rw [e1, e2]

theorem genWhile_success (oracle : Nat → GenRand) (sq : Option Nat) (sf : Bool)
    (cp : Option (List Char)) (used : List (List Char)) :
    ∀ fuel call tok f c, genWhile oracle sq sf cp used fuel call = (tok, f, c) → 0 < f →
      ∃ n, n + 1 < fuel ∧
        (∀ j, j < n → generateTokenCode (oracle (call + j)) sq sf cp ∈ used) ∧
        generateTokenCode (oracle (call + n)) sq sf cp ∉ used := by
  intro fuel
  induction fuel with
  | zero =>
    intro call tok f c h hf
    simp only [genWhile, Prod.mk.injEq] at h
    omega
  | succ fuel ih =>
    intro call tok f c h hf
    by_cases hc : generateTokenCode (oracle call) sq sf cp ∈ used ∧ 0 < fuel
    · rw [show genWhile oracle sq sf cp used (fuel + 1) call =
          genWhile oracle sq sf cp used fuel (call + 1) from by simp [genWhile, hc]] at h
      obtain ⟨n, hn1, hcol, hfresh⟩ := ih (call + 1) tok f c h hf
      refine ⟨n + 1, by omega, ?_, ?_⟩
      · intro j hj
        match j, hj with
        | 0, _ => simpa using hc.1
        | j + 1, hj =>
          have hcj := hcol j (by omega)
          rwa [show call + 1 + j = call + (j + 1) from by omega] at hcj
      · rwa [show call + 1 + n = call + (n + 1) from by omega] at hfresh
    · rw [show genWhile oracle sq sf cp used (fuel + 1) call =
          (generateTokenCode (oracle call) sq sf cp, fuel, call + 1) from by
        simp [genWhile, hc]] at h
      simp only [Prod.mk.injEq] at h
      obtain ⟨htok, hff, -⟩ := h
      have hfree : generateTokenCode (oracle call) sq sf cp ∉ used := fun hmem =>
        hc ⟨hmem, by omega⟩
      exact ⟨0, by omega, fun j hj => absurd hj (by omega), by simpa using hfree⟩

/-- C9 (amended): a position of generateTokenBatch fails with ExhaustedRetries
    exactly when there is no attempt index n with n plus one strictly below the
    cap of one hundred attempts for the complex format or one thousand for the
    simple format such that the first n candidates collide with already used
    codes and the next candidate is fresh; in particular a fresh code found in
    strictly fewer than the cap attempts never fails, while a fresh code found
    on exactly the cap-th attempt is discarded and still fails. -/
theorem tokensysC9_amended (oracle : Nat → GenRand) (sq : Option Nat) (sf : Bool)
    (cp : Option (List Char)) (used : List (List Char)) (call : Nat) :
    batchStep oracle sq sf cp used call = Except.error () ↔
      ¬ ∃ n, n + 1 < maxAttemptsFor sf ∧
        (∀ j, j < n → generateTokenCode (oracle (call + j)) sq sf cp ∈ used) ∧
        generateTokenCode (oracle (call + n)) sq sf cp ∉ used := by
  unfold batchStep
  rcases hgw : genWhile oracle sq sf cp used (maxAttemptsFor sf) call with ⟨t0, f0, c0⟩
  dsimp only
  constructor
  · intro herr hex
    obtain ⟨n, hn, hcol, hfresh⟩ := hex
    have hrun := genWhile_firstFresh oracle sq sf cp used n (maxAttemptsFor sf) call
      (by omega) hcol hfresh
    rw [hgw] at hrun
    simp only [Prod.mk.injEq] at hrun
    by_cases hf : f0 = 0
    · omega
    · rw [if_neg hf] at herr
      exact Except.noConfusion herr
  · intro hno
    by_cases hf : f0 = 0
    · rw [if_pos hf]
    · exfalso
      obtain ⟨n, hn1, hcol, hfresh⟩ := genWhile_success oracle sq sf cp used
        (maxAttemptsFor sf) call t0 f0 c0 hgw (Nat.pos_of_ne_zero hf)
      exact hno ⟨n, hn1, hcol, hfresh⟩

/-- C9 (counterexample): under an oracle that repeats one draw for the first
    hundred calls, the second batch position collides ninety nine times and the
    hundredth attempt produces a fresh code, yet generateTokenBatch still fails
    with ExhaustedRetries, so the claim that a fresh unique code found within
    the cap avoids failure is false. -/
theorem tokensysC9_cex :
    generateTokenBatch oracleCap 2 none false none = Except.error () ∧
    generateTokenCode (oracleCap 100) none false none ∉ ["EA-AAAAAAAA-0000".toList] :=
  ⟨rfl, by decide⟩

theorem lookupKey_append (k : String) (l₁ l₂ : List (String × String)) :
    lookupKey k (l₁ ++ l₂) =
      match lookupKey k l₁ with
      | some v => some v
      | none => lookupKey k l₂ := by
  induction l₁ with
  | nil => simp [lookupKey]
  | cons p rest ih =>
    by_cases h : p.1 = k
    · simp [lookupKey, h]
    · simp [lookupKey, h, ih]

theorem lookupKey_map (k : String) (a b : List (String × String)) :
    lookupKey k (a.map (fun p => match lookupKey p.1 b with | some v => (p.1, v) | none => p)) =
      (lookupKey k a).map (fun v => match lookupKey k b with | some w => w | none => v) := by
  induction a with
  | nil => simp [lookupKey]
  | cons p rest ih =>
    cases hpb : lookupKey p.1 b with
    | some w =>
      by_cases h : p.1 = k
      · subst h
        simp [lookupKey, hpb]
      · simp [lookupKey, hpb, h, ih]
    | none =>
      by_cases h : p.1 = k
      · subst h
        simp [lookupKey, hpb]
      · simp [lookupKey, hpb, h, ih]

theorem lookupKey_filter_keep (k : String) (b : List (String × String))
    (pred : String × String → Bool) (h : ∀ q ∈ b, q.1 = k → pred q = true) :
    lookupKey k (b.filter pred) = lookupKey k b := by
  induction b with
  | nil => rfl
  | cons q rest ih =>
    have ih' := ih (fun x hx => h x (List.mem_cons_of_mem _ hx))
    by_cases hq : q.1 = k
    · rw [List.filter_cons, if_pos (h q (List.mem_cons_self _ _) hq)]
      simp [lookupKey, hq]
    · rw [List.filter_cons]
      by_cases hpq : pred q = true
      · rw [if_pos hpq]
        simp [lookupKey, hq, ih']
      · rw [if_neg hpq]
        simp [lookupKey, hq, ih']

theorem lookupKey_filter_none (k : String) (b : List (String × String))
    (pred : String × String → Bool) (h : ∀ q ∈ b, q.1 = k → pred q = false) :
    lookupKey k (b.filter pred) = none := by
  induction b with
  | nil => rfl
  | cons q rest ih =>
    have ih' := ih (fun x hx => h x (List.mem_cons_of_mem _ hx))
    rw [List.filter_cons]
    by_cases hpq : pred q = true
    · have hq : q.1 ≠ k := fun hqk => by
        have hcontra := h q (List.mem_cons_self _ _) hqk
        rw [hpq] at hcontra
        exact Bool.noConfusion hcontra
      rw [if_pos hpq]
      simp [lookupKey, hq, ih']
    · rw [if_neg hpq]
      exact ih'

theorem lookupKey_jsMerge (k : String) (a b : List (String × String)) :
    lookupKey k (jsMerge a b) =
      match lookupKey k b with
      | some v => some v
      | none => lookupKey k a := by
  unfold jsMerge
  rw [lookupKey_append, lookupKey_map]
  cases ha : lookupKey k a with
  | none =>
    rw [lookupKey_filter_keep k b _ (fun q hq hqk => by simp [hqk, ha])]
    cases hb : lookupKey k b <;> simp
  | some v =>
    cases hb : lookupKey k b with
    | some w => simp [hb]
    | none => simp [hb]

theorem db_validateToken_cases (t : Token) (now : Nat) :
    db_validateToken (some t) now = none ∨ db_validateToken (some t) now = some t := by
  unfold db_validateToken
  dsimp only
  by_cases h1 : rowMatches t now = true
  · rw [if_pos h1]
    by_cases h2 : t.max_redemptions > 1
    · rw [if_pos h2]
      by_cases h3 : t.max_redemptions ≤ t.current_redemptions
      · rw [if_pos h3]
        exact Or.inl rfl
      · rw [if_neg h3]
        exact Or.inr rfl
    · rw [if_neg h2]
      cases t.redeemed_by <;> simp
  · rw [if_neg h1]
    exact Or.inl rfl

theorem db_redeemToken_ok_inv {t t' : Token} {now : Nat} {user : String}
    {meta : List (String × String)}
    (h : db_redeemToken (some t) now user meta = Except.ok t') :
    t' = applyRedeemUpdate t t now user meta := by
  unfold db_redeemToken at h
  rcases db_validateToken_cases t now with hv | hv <;> rw [hv] at h
  · exact Except.noConfusion h
  · dsimp only at h
    by_cases hc : t.max_redemptions > 1 ∧ user ∈ t.redeemed_users
    · rw [if_pos hc] at h
      exact Except.noConfusion h
    · rw [if_neg hc] at h
      injection h with h
      exact h.symm

/-- C1 (counterexample): redeeming a fresh unique code record leaves the
    redemption counter and the redeemed user list untouched, and the first
    redemption of a fresh shared code record never sets the legacy single
    redeemer column; both contradict the claim that every successful redeem
    increments the counter, appends the identity, and sets the single redeemer
    columns on the first redemption regardless of the quota. -/
theorem tokensysC1_cex :
    db_redeemToken (some tA) 3 "alice" [("k", "v")] = Except.ok tA1 ∧
    tA1.current_redemptions = tA.current_redemptions ∧
    tA1.redeemed_users = [] ∧
    db_redeemToken (some tB) 3 "bob" [] = Except.ok tB1 ∧
    tB1.current_redemptions = 1 ∧
    tB1.redeemed_by = none :=
  ⟨rfl, rfl, rfl, rfl, rfl, rfl⟩

/-- C1 (amended): a successful redeem on a shared record with quota above one
    increments the counter by one, appends the identity, never touches the
    single redeemer column, and stamps the redemption time only on the first
    redemption; on a unique record with quota one it sets the single redeemer
    columns and leaves the counter and the user list unchanged; in both cases
    the caller metadata is merged with caller keys overriding existing keys. -/
theorem tokensysC1_amended (t : Token) (now : Nat) (user : String)
    (meta : List (String × String)) (t' : Token)
    (h : db_redeemToken (some t) now user meta = Except.ok t') :
    (t.max_redemptions > 1 →
      t'.current_redemptions = t.current_redemptions + 1 ∧
      t'.redeemed_users = t.redeemed_users ++ [user] ∧
      t'.redeemed_by = t.redeemed_by ∧
      t'.redeemed_at = (if t.current_redemptions = 0 then some now else t.redeemed_at)) ∧
    (t.max_redemptions ≤ 1 →
      t'.current_redemptions = t.current_redemptions ∧
      t'.redeemed_users = t.redeemed_users ∧
      t'.redeemed_by = some user ∧
      t'.redeemed_at = some now) ∧
    (∀ k, lookupKey k t'.metadata =
      match lookupKey k meta with
      | some v => some v
      | none => lookupKey k t.metadata) := by
  have ht' := db_redeemToken_ok_inv h
  subst ht'
  unfold applyRedeemUpdate
  by_cases hm : t.max_redemptions > 1
  · rw [if_pos hm]
    exact ⟨fun _ => ⟨rfl, rfl, rfl, rfl⟩, fun hle => absurd hm (by omega),
      fun k => lookupKey_jsMerge k t.metadata meta⟩
  · rw [if_neg hm]
    exact ⟨fun hgt => absurd hgt hm, fun _ => ⟨rfl, rfl, rfl, rfl⟩,
      fun k => lookupKey_jsMerge k t.metadata meta⟩

/-- C1 (witness): the amended redeem theorem applied to the first redemption of
    the concrete shared record tB by the identity bob. -/
theorem tokensysC1_witness :
    tB1.current_redemptions = tB.current_redemptions + 1 ∧
    tB1.redeemed_users = tB.redeemed_users ++ ["bob"] ∧
    tB1.redeemed_by = tB.redeemed_by ∧
    tB1.redeemed_at = (if tB.current_redemptions = 0 then some 3 else tB.redeemed_at) :=
  (tokensysC1_amended tB 3 "bob" [] tB1 rfl).1 (by decide)

/-- C2 (race): the source performs the redemption as an application level read
    followed by a separate update whose counter value is computed from the read
    snapshot. Two interleaved redeemers of the quota two record both pass the
    read phase on the same snapshot, both writes succeed, and the second write
    overwrites the first: the counter ends at one and the first redeemer
    disappears from the user list, so a third and even more redemptions succeed
    past the quota. This violates the required at most N successful redemptions
    guarantee and shows the sequence is not an atomic conditional update. -/
theorem tokensysC2_bug :
    redeemCheck (some tQuota) 10 "A" = some tQuota ∧
    redeemCheck (some tQuota) 10 "B" = some tQuota ∧
    tQuota.max_redemptions = 2 ∧
    writeB.current_redemptions = 1 ∧
    writeB.redeemed_users = ["B"] ∧
    db_redeemToken (some writeB) 11 "C" [] = Except.ok writeC ∧
    writeC.current_redemptions = 2 ∧
    db_redeemToken (some writeC) 12 "D" [] = Except.error RedeemError.notEligible :=
  ⟨rfl, rfl, rfl, rfl, rfl, rfl, rfl, rfl⟩

theorem reachable_unique_counter {t : Token} (h : Reachable t) :
    t.max_redemptions = 1 → t.current_redemptions = 0 := by
  induction h with
  | created code creator maxRed expires meta => intro _; rfl
  | redeemed t now user meta t' ht hstep ih =>
    intro h1
    have ht' := db_redeemToken_ok_inv hstep
    subst ht'
    unfold applyRedeemUpdate at h1 ⊢
    by_cases hm : t.max_redemptions > 1
    · rw [if_pos hm] at h1
      dsimp only at h1
      exact absurd h1 (by omega)
    · rw [if_neg hm] at h1 ⊢
      dsimp only at h1 ⊢
      exact ih h1
  | deactivated t ht ih =>
    intro h1
    exact ih h1

/-- C3 (counterexample): the record obtained by creating a unique code and
    redeeming it once is reachable, has quota one and a non null single
    redeemer, yet its redemption counter is zero and not one, because the
    unique code path of redeemToken never increments the counter. -/
theorem tokensysC3_cex :
    Reachable tUniqueRedeemed ∧ tUniqueRedeemed.max_redemptions = 1 ∧
    tUniqueRedeemed.redeemed_by ≠ none ∧ tUniqueRedeemed.current_redemptions ≠ 1 :=
  ⟨Reachable.redeemed tUnique 5 "u1" [] tUniqueRedeemed
      (Reachable.created "EA-AAAAAAAA-0001".toList none (some 1) none []) rfl,
    rfl, by decide, by decide⟩

/-- C3 (amended): every record reachable from creation through redemptions and
    deactivations with quota one keeps its redemption counter at zero, also
    after the single redeemer column has been set, because the unique code
    branch of redeemToken writes only the legacy columns. -/
theorem tokensysC3_amended (t : Token) (h : Reachable t) (h1 : t.max_redemptions = 1)
    (_h2 : t.redeemed_by ≠ none) : t.current_redemptions = 0 :=
  reachable_unique_counter h h1

/-- C3 (witness): the amended invariant applied to the concrete reachable
    record produced by creating and redeeming a unique code. -/
theorem tokensysC3_witness : tUniqueRedeemed.current_redemptions = 0 :=
  tokensysC3_amended tUniqueRedeemed
    (Reachable.redeemed tUnique 5 "u1" [] tUniqueRedeemed
      (Reachable.created "EA-AAAAAAAA-0001".toList none (some 1) none []) rfl)
    rfl (by decide)

/-- C4 (counterexample): a second redeem by the same identity on an already
    redeemed unique code record fails with the generic not valid for redemption
    error, not with the dedicated already redeemed error, because the duplicate
    redeemer guard in redeemToken only covers quotas above one. -/
theorem tokensysC4_cex :
    db_redeemToken (some tUniq2) 9 "u1" [] = Except.error RedeemError.notEligible ∧
    RedeemError.notEligible ≠ RedeemError.alreadyRedeemed :=
  ⟨rfl, by decide⟩

/-- C4 (amended): a repeat redeem by the same identity on a shared record that
    still passes validation fails with the already redeemed error, while any
    redeem on an already redeemed unique record fails with the generic not
    valid for redemption error; in either failure the record is not updated
    because the source throws before issuing the update statement. -/
theorem tokensysC4_amended (t : Token) (now : Nat) (user : String)
    (meta : List (String × String)) :
    (db_validateToken (some t) now = some t → t.max_redemptions > 1 →
      user ∈ t.redeemed_users →
      db_redeemToken (some t) now user meta = Except.error RedeemError.alreadyRedeemed) ∧
    (t.max_redemptions ≤ 1 → t.redeemed_by ≠ none →
      db_redeemToken (some t) now user meta = Except.error RedeemError.notEligible) := by
  constructor
  · intro hv hm hu
    unfold db_redeemToken
    rw [hv]
    dsimp only
    rw [if_pos ⟨hm, hu⟩]
  · intro hm hrb
    have hv : db_validateToken (some t) now = none := by
      unfold db_validateToken
      dsimp only
      by_cases h1 : rowMatches t now = true
      · rw [if_pos h1, if_neg (show ¬ t.max_redemptions > 1 by omega)]
        cases hb : t.redeemed_by with
        | none => exact absurd hb hrb
        | some u => rfl
      · rw [if_neg h1]
    unfold db_redeemToken
    rw [hv]

/-- C4 (witness): the amended theorem applied to the concrete shared record
    with identity u1 in the redeemed set, and to the concrete redeemed unique
    record. -/
theorem tokensysC4_witness :
    db_redeemToken (some tShared3) 9 "u1" [] = Except.error RedeemError.alreadyRedeemed ∧
    db_redeemToken (some tUniq2) 11 "u1" [] = Except.error RedeemError.notEligible :=
  ⟨(tokensysC4_amended tShared3 9 "u1" []).1 rfl (by decide) (by decide),
    (tokensysC4_amended tUniq2 11 "u1" []).2 (by decide) (by decide)⟩

/-- C5 (counterexample): validating a well formed code whose record has been
    deactivated but is otherwise eligible yields valid false with the single
    lumped error message, byte for byte the same result a nonexistent code
    yields, and that message is not the specific reason inactive, so the claim
    that validate reports a state specific reason is false. -/
theorem tokensysC5_cex :
    service_validateToken "BETA2025".toList (some tInactiveOff) 0 =
      { valid := false, token := none, error := some notEligibleMsg } ∧
    service_validateToken "BETA2025".toList none 0 =
      { valid := false, token := none, error := some notEligibleMsg } ∧
    notEligibleMsg ≠ "inactive" :=
  ⟨rfl, rfl, by decide⟩

/-- C5 (amended): validate fails closed, but it distinguishes only two error
    messages: a malformed code gets the invalid format message without any
    store access, and every well formed code whose record lookup fails,
    including the inactive case, gets the single lumped message naming not
    found, already redeemed, expired, and inactive together; an inactive record
    always fails the lookup. -/
theorem tokensysC5_amended (code : List Char) (rec : Option Token) (now : Nat) :
    ((service_validateToken code rec now).valid = true ↔
      isValidTokenFormat code = true ∧ db_validateToken rec now ≠ none) ∧
    (isValidTokenFormat code = false →
      service_validateToken code rec now =
        { valid := false, token := none, error := some invalidFormatMsg }) ∧
    (isValidTokenFormat code = true → db_validateToken rec now = none →
      service_validateToken code rec now =
        { valid := false, token := none, error := some notEligibleMsg }) ∧
    (∀ t, rec = some t → t.is_active = false → db_validateToken rec now = none) := by
  refine ⟨?_, ?_, ?_, ?_⟩
  · unfold service_validateToken
    by_cases hf : isValidTokenFormat code = false
    · rw [if_pos hf]
      simp [hf]
    · have hf' : isValidTokenFormat code = true := by
        revert hf
        cases isValidTokenFormat code <;> simp
      rw [if_neg hf]
      cases hv : db_validateToken rec now with
      | none => simp [hf', hv]
      | some t => simp [hf', hv]
  · intro hf
    unfold service_validateToken
    rw [if_pos hf]
  · intro hf hv
    unfold service_validateToken
    rw [if_neg (show ¬ isValidTokenFormat code = false by rw [hf]; simp), hv]
  · intro t hrec hia
    subst hrec
    have hrm : rowMatches t now = false := by
      simp [rowMatches, hia]
    unfold db_validateToken
    dsimp only
    rw [if_neg (show ¬ rowMatches t now = true by rw [hrm]; simp)]

/-- C5 (witness): the amended theorem applied to a well formed code over the
    concrete deactivated record. -/
theorem tokensysC5_witness :
    db_validateToken (some tInactiveOff) 7 = none ∧
    service_validateToken "BETA2025".toList (some tInactiveOff) 7 =
      { valid := false, token := none, error := some notEligibleMsg } :=
  ⟨(tokensysC5_amended "BETA2025".toList (some tInactiveOff) 7).2.2.2 tInactiveOff rfl rfl,
    (tokensysC5_amended "BETA2025".toList (some tInactiveOff) 7).2.2.1 (by decide)
      ((tokensysC5_amended "BETA2025".toList (some tInactiveOff) 7).2.2.2 tInactiveOff rfl rfl)⟩

/-- C6 (witness): the format characterization applied to a concrete complex
    code, whose hash and sequence segments witness the declarative pattern. -/
theorem tokensysC6_witness : isValidTokenFormat "EA-A1B2C3D4-0001".toList = true :=
  (tokensysC6 "EA-A1B2C3D4-0001".toList).mpr
    (Or.inl ⟨"A1B2C3D4".toList, "0001".toList, rfl, rfl, by decide, rfl, by decide⟩)

/-- C9 (witness): the amended failure characterization applied to a first
    batch position over the empty used set, where the very first attempt is
    fresh and well below the cap, so the step does not fail. -/
theorem tokensysC9_witness :
    batchStep (fun _ => rZero) none false none [] 0 ≠ Except.error () := fun herr =>
  ((tokensysC9_amended (fun _ => rZero) none false none [] 0).mp herr)
    ⟨0, by decide, fun j hj => absurd hj (by omega), by decide⟩
